import Mathlib

/-!
Verification of the vroomon genetic-car engine: powertrain part model,
power/torque propagation, wheel validation, genetic operators (mutation,
crossover) and the population evolution loop, embedded shallowly from the
Python sources.  Numeric values are modelled as rationals; Python floats
that can be NaN or infinite are modelled by the `PyFloat` type; randomness
is modelled by explicitly supplied draw streams; Python exceptions
(out-of-range indexing, implicit `None` returns) are modelled by `Option`.
-/

namespace Vroomon

/-! ## Powertrain part model (src/vroomon/car/powertrain/*) -/

/-- The closed set of powertrain part variants: Cylinder (power source),
DriveShaft (lossy transfer), GearSet (ratio / branch point). -/
inductive PowertrainPart : Type
  | cylinder (power : ℚ)
  | driveShaft (efficiency : ℚ)
  | gearSet (input_ratio wheel_proportion output_ratio : ℚ)
  deriving DecidableEq

/-- `GearSet.__init__`: the input and output ratios are floored at 0.1,
the wheel proportion is stored unclamped. -/
def mkGearSet (i w o : ℚ) : PowertrainPart :=
  .gearSet (max i (1/10)) w (max o (1/10))

/-- Tagged DNA records for powertrain parts, one per single-letter tag. -/
inductive PtDna : Type
  | C (power : ℚ)
  | D (efficiency : ℚ)
  | G (input_ratio wheel_proportion output_ratio : ℚ)
  deriving DecidableEq

/-- `to_dna` of each powertrain variant: tagged record of the stored fields. -/
def ptToDna : PowertrainPart → PtDna
  | .cylinder p => .C p
  | .driveShaft e => .D e
  | .gearSet i w o => .G i w o

/-- `from_dna` of each powertrain variant; the GearSet case goes through the
constructor (`mkGearSet`), hence through the ratio clamp. -/
def ptFromDna : PtDna → PowertrainPart
  | .C p => .cylinder p
  | .D e => .driveShaft e
  | .G i w o => mkGearSet i w o

/-! ## Power propagation (Car.calculate_wheel_power)

The walk keeps `current_power` (seeded 0) and `current_torque` (seeded
10000).  The old-code version (src/old_code/.../car/car.py) ends with a
fallback `return current_power, current_torque`; the current version
(src/src/vroomon/car/car.py) has no fallback and implicitly returns `None`,
which we model with `Option`. -/

/-- One full (non-returning) transformation of the running pair by a part:
this is the loop body without the `i == wheel_position` early returns. -/
def ptStep (st : ℚ × ℚ) : PowertrainPart → ℚ × ℚ
  | .cylinder p => (st.1 + p, st.2)
  | .driveShaft e => (st.1 * e, st.2 * e)
  | .gearSet i w o =>
      let cp := st.1 * i
      let ct := st.2 / i
      ((cp - cp * w) * o, (ct - ct * w) / o)

/-- The loop of `calculate_wheel_power` (old-code version, with the final
fallback return). `i` is the running index, `wp` the target wheel position. -/
def calcAux : List PowertrainPart → ℕ → ℕ → ℚ × ℚ → ℚ × ℚ
  | [], _, _, st => st
  | .cylinder p :: rest, i, wp, st =>
      let st1 := (st.1 + p, st.2)
      if i = wp then st1 else calcAux rest (i + 1) wp st1
  | .driveShaft e :: rest, i, wp, st =>
      let st1 := (st.1 * e, st.2 * e)
      if i = wp then st1 else calcAux rest (i + 1) wp st1
  | .gearSet ir w o :: rest, i, wp, st =>
      let cp := st.1 * ir
      let ct := st.2 / ir
      if i = wp then (cp * w, ct * w)
      else calcAux rest (i + 1) wp ((cp - cp * w) * o, (ct - ct * w) / o)

/-- `Car.calculate_wheel_power` (old-code version): seeds power 0,
torque 10000, walks the powertrain.  Total: on fallthrough it returns the
last computed pair. -/
def calculate_wheel_power (pt : List PowertrainPart) (wp : ℕ) : ℚ × ℚ :=
  calcAux pt 0 wp (0, 10000)

/-- The loop of the current (src/src) `calculate_wheel_power`, which has no
fallback: exhausting the loop returns `none` (Python `None`). -/
def calcAuxV2 : List PowertrainPart → ℕ → ℕ → ℚ × ℚ → Option (ℚ × ℚ)
  | [], _, _, _ => none
  | .cylinder p :: rest, i, wp, st =>
      let st1 := (st.1 + p, st.2)
      if i = wp then some st1 else calcAuxV2 rest (i + 1) wp st1
  | .driveShaft e :: rest, i, wp, st =>
      let st1 := (st.1 * e, st.2 * e)
      if i = wp then some st1 else calcAuxV2 rest (i + 1) wp st1
  | .gearSet ir w o :: rest, i, wp, st =>
      let cp := st.1 * ir
      let ct := st.2 / ir
      if i = wp then some (cp * w, ct * w)
      else calcAuxV2 rest (i + 1) wp ((cp - cp * w) * o, (ct - ct * w) / o)

/-- `Car.calculate_wheel_power` (current src/src version, no fallback). -/
def calculate_wheel_power_v2 (pt : List PowertrainPart) (wp : ℕ) :
    Option (ℚ × ℚ) :=
  calcAuxV2 pt 0 wp (0, 10000)

/-- The full walk with no early return: the value the fallback line returns
("the last computed `(current_power, current_torque)`"). -/
def propagateAll (pt : List PowertrainPart) : ℚ × ℚ :=
  pt.foldl ptStep (0, 10000)

/-- The ratio bounds that the `GearSet.__init__` clamp establishes; trivially
true for the other variants. -/
def gearRatiosOK : PowertrainPart → Prop
  | .gearSet i _ o => 1/10 ≤ i ∧ 1/10 ≤ o
  | _ => True

instance (p : PowertrainPart) : Decidable (gearRatiosOK p) := by
  cases p <;> simp only [gearRatiosOK] <;> infer_instance

/-- The propagation loop with every division guarded: dividing by a zero
ratio yields `none`.  Used to express that the divisions by `input_ratio`
and `output_ratio` in the walk never divide by zero. -/
def calcAuxChecked : List PowertrainPart → ℕ → ℕ → ℚ × ℚ → Option (ℚ × ℚ)
  | [], _, _, st => some st
  | .cylinder p :: rest, i, wp, st =>
      let st1 := (st.1 + p, st.2)
      if i = wp then some st1 else calcAuxChecked rest (i + 1) wp st1
  | .driveShaft e :: rest, i, wp, st =>
      let st1 := (st.1 * e, st.2 * e)
      if i = wp then some st1 else calcAuxChecked rest (i + 1) wp st1
  | .gearSet ir w o :: rest, i, wp, st =>
      if ir = 0 then none else
      let cp := st.1 * ir
      let ct := st.2 / ir
      if i = wp then some (cp * w, ct * w)
      else if o = 0 then none else
        calcAuxChecked rest (i + 1) wp ((cp - cp * w) * o, (ct - ct * w) / o)

/-- Division-checked `calculate_wheel_power`. -/
def calculate_wheel_power_checked (pt : List PowertrainPart) (wp : ℕ) :
    Option (ℚ × ℚ) :=
  calcAuxChecked pt 0 wp (0, 10000)

/-! ## Python float model and Wheel validation
(src/src/vroomon/car/frame/wheel.py, rectangle.py) -/

/-- A Python float as the validators see it: NaN, a signed infinity, or a
finite value (modelled as a rational). -/
inductive PyFloat : Type
  | nan
  | inf (pos : Bool)
  | fin (val : ℚ)
  deriving DecidableEq

/-- `Wheel._validate_size`. -/
def validate_size : PyFloat → ℚ
  | .nan => 5
  | .inf _ => 5
  | .fin s =>
      if s ≤ 0 then 1
      else if s < 1/10 then 1
      else if s > 50 then 50
      else s

/-- `Wheel._validate_power`. -/
def validate_power : PyFloat → ℚ
  | .nan => 0
  | .inf pos => if pos then 1000 else -1000
  | .fin p => if |p| > 10000 then (if p > 0 then 10000 else -10000) else p

/-- `Wheel._validate_torque` (note: either infinity maps to 1000). -/
def validate_torque : PyFloat → ℚ
  | .nan => 1/10
  | .inf _ => 1000
  | .fin t => if t ≤ 0 then 1/10 else if t > 50000 then 50000 else t

/-- `Wheel._validate_rate`; its NaN/Infinity branches are unreachable in
this model because the rate is computed from validated finite power and a
validated positive size. -/
def validate_rate (r : ℚ) : ℚ :=
  if |r| > 1000 then (if r > 0 then 1000 else -1000) else r

/-- A pymunk SimpleMotor as far as the wheel code sets it: its rate and its
`max_force`. -/
structure Motor where
  rate : ℚ
  max_force : ℚ
  deriving DecidableEq

/-- The motor `build_wheel` creates: disabled (rate 0, force 0) when the
validated power is essentially zero, otherwise rate `-power / size`
(validated) and force the re-validated torque. -/
def wheelMotor (p t s : ℚ) : Motor :=
  if |p| < 1/1000 then ⟨0, 0⟩
  else ⟨validate_rate (-p / s), validate_torque (.fin t)⟩

/-- The fields of a built Wheel that the claims are about. -/
structure WheelModel where
  power : ℚ
  torque : ℚ
  size : ℚ
  motor : Motor
  deriving DecidableEq

/-- `Wheel.__init__` (size validation) followed by `build_wheel` (power and
torque validation, motor construction). -/
def buildWheel (power torque size : PyFloat) : WheelModel :=
  ⟨validate_power power, validate_torque torque, validate_size size,
   wheelMotor (validate_power power) (validate_torque torque)
     (validate_size size)⟩

/-- `Rectangle._validate_dimension` on finite values; the NaN/Infinity
branches (which return the distribution default) are unreachable in this
model because the generators take the absolute value of a finite draw. -/
def validate_dimension (dim : ℚ) : ℚ :=
  if dim ≤ 0 then 1
  else if dim < 1/2 then 1
  else if dim > 50 then 50
  else dim

/-! ## Frame parts and cars -/

/-- Legacy single-letter frame codes. -/
inductive FrameCode : Type
  | R
  | W
  deriving DecidableEq

/-- Legacy single-letter powertrain codes. -/
inductive PtCode : Type
  | C
  | D
  | G
  deriving DecidableEq

/-- A built frame part: Rectangle (with its validated dimensions) or Wheel. -/
inductive FramePart : Type
  | rect (length height : ℚ)
  | wheel (w : WheelModel)
  deriving DecidableEq

/-- The per-car part records the claims are about. -/
structure CarParts where
  frame : List FramePart
  powertrain : List PowertrainPart
  deriving DecidableEq

/-- The DNA type tag of a frame part (`to_dna()["type"]`). -/
def frameCodeOf : FramePart → FrameCode
  | .rect _ _ => .R
  | .wheel _ => .W

/-- The DNA type tag of a powertrain part (`to_dna()["type"]`). -/
def ptCodeOf : PowertrainPart → PtCode
  | .cylinder _ => .C
  | .driveShaft _ => .D
  | .gearSet _ _ _ => .G

/-! ## Mutation (population.mutate and Car.mutate)

`population.mutate` edits the two parallel lists `car.frame` and
`car.powertrain` in place; `Car.mutate` first reduces the car's DNA to bare
type codes, edits the zipped pair list, and rebuilds a fresh car from the
bare codes.  Random draws are supplied explicitly: each loop iteration
consumes one uniform variate and the fresh random parts it may need. -/

/-- A genome as two parallel sequences. -/
structure Genome (F P : Type) where
  frame : List F
  powertrain : List P

/-- One draw of the mutation loop: the uniform variate `r` and the fresh
random frame and powertrain parts used if the edit needs them. -/
structure MutDraw (F P : Type) where
  r : ℚ
  nf : F
  np : P

/-- One iteration body of `population.mutate` at index `i`: replace when
`r < 0.10`; remove when `r < 0.15` and more than one slot remains (without
advancing); insert before `i` when `r < 0.20`; otherwise keep.  Note that
when the remove guard fails only because of the length condition, control
falls through to the insert test, exactly as in the Python `elif` chain. -/
def mutateStep {F P : Type} (g : Genome F P) (i : ℕ) (d : MutDraw F P) :
    Genome F P × ℕ :=
  if d.r < 1/10 then
    (⟨g.frame.set i d.nf, g.powertrain.set i d.np⟩, i + 1)
  else if d.r < 15/100 ∧ 1 < g.frame.length then
    (⟨g.frame.eraseIdx i, g.powertrain.eraseIdx i⟩, i)
  else if d.r < 2/10 then
    (⟨g.frame.insertIdx i d.nf, g.powertrain.insertIdx i d.np⟩, i + 1)
  else (g, i + 1)

/-- The `while i < len(car.frame)` loop of `population.mutate`, consuming
one draw per iteration (a finite draw list models any terminating run). -/
def mutateLoop {F P : Type} :
    List (MutDraw F P) → Genome F P → ℕ → Genome F P
  | [], g, _ => g
  | d :: rest, g, i =>
      if i < g.frame.length then
        let gi := mutateStep g i d
        mutateLoop rest gi.1 gi.2
      else g

/-- One iteration body of the `Car.mutate` loop over the zipped list of
(frame code, powertrain code) pairs; same branch structure as
`mutateStep`. -/
def pairsStep (l : List (FrameCode × PtCode)) (i : ℕ) (r : ℚ)
    (np : FrameCode × PtCode) : List (FrameCode × PtCode) × ℕ :=
  if r < 1/10 then (l.set i np, i + 1)
  else if r < 15/100 ∧ 1 < l.length then (l.eraseIdx i, i)
  else if r < 2/10 then (l.insertIdx i np, i + 1)
  else (l, i + 1)

/-- The `while i < len(pairs)` loop of `Car.mutate`. -/
def pairsLoop :
    List (ℚ × FrameCode × PtCode) → List (FrameCode × PtCode) → ℕ →
      List (FrameCode × PtCode)
  | [], l, _ => l
  | (r, nf, np) :: rest, l, i =>
      if i < l.length then
        let li := pairsStep l i r (nf, np)
        pairsLoop rest li.1 li.2
      else l

/-- Take the next value from a random draw supply (0 when exhausted). -/
def drawQ : List ℚ → ℚ × List ℚ
  | [] => (0, [])
  | x :: xs => (x, xs)

/-- `from_random` of a powertrain part selected by its legacy code: the
normal variates are the supplied draws. -/
def ptPartFromCode : PtCode → List ℚ → PowertrainPart × List ℚ
  | .C, sup =>
      let d := drawQ sup
      (.cylinder d.1, d.2)
  | .D, sup =>
      let d := drawQ sup
      (.driveShaft d.1, d.2)
  | .G, sup =>
      let d1 := drawQ sup
      let d2 := drawQ d1.2
      let d3 := drawQ d2.2
      (mkGearSet d1.1 d2.1 d3.1, d3.2)

/-- `Car._build_powertrain` on legacy bare codes: each part is built by
`from_random`. -/
def buildPowertrainFromCodes :
    List PtCode → List ℚ → List PowertrainPart × List ℚ
  | [], sup => ([], sup)
  | c :: cs, sup =>
      let p := ptPartFromCode c sup
      let ps := buildPowertrainFromCodes cs p.2
      (p.1 :: ps.1, ps.2)

/-- `Rectangle.from_random`: both dimensions are absolute normal draws run
through `_validate_dimension`. -/
def rectFromRandom (sup : List ℚ) : FramePart × List ℚ :=
  let d1 := drawQ sup
  let d2 := drawQ d1.2
  (.rect (validate_dimension |d1.1|) (validate_dimension |d2.1|), d2.2)

/-- `Wheel.from_random`: size is an absolute normal draw floored at 1;
the wheel is then built with the computed power and torque. -/
def wheelFromRandom (power torque : ℚ) (sup : List ℚ) :
    FramePart × List ℚ :=
  let d := drawQ sup
  (.wheel (buildWheel (.fin power) (.fin torque) (.fin (max |d.1| 1))), d.2)

/-- `Car._build_frame` on legacy bare codes: Rectangles are random; Wheels
get their power and torque from `calculate_wheel_power` at the index of the
frame slot being built (`n` counts frame parts built so far). -/
def buildFrameFromCodes (pt : List PowertrainPart) :
    List FrameCode → ℕ → List ℚ → List FramePart × List ℚ
  | [], _, sup => ([], sup)
  | .R :: cs, n, sup =>
      let p := rectFromRandom sup
      let ps := buildFrameFromCodes pt cs (n + 1) p.2
      (p.1 :: ps.1, ps.2)
  | .W :: cs, n, sup =>
      let pw := calculate_wheel_power pt n
      let p := wheelFromRandom pw.1 pw.2 sup
      let ps := buildFrameFromCodes pt cs (n + 1) p.2
      (p.1 :: ps.1, ps.2)

/-- `Car.mutate`: serialize to DNA, keep only the type codes, run the pair
edit loop, then build a fresh car from the bare codes — every part's
parameters are regenerated from the random supply, even at kept slots. -/
def carMutate (c : CarParts) (draws : List (ℚ × FrameCode × PtCode))
    (sup : List ℚ) : CarParts :=
  let pairs := List.zip (c.frame.map frameCodeOf) (c.powertrain.map ptCodeOf)
  let pairs2 := pairsLoop draws pairs 0
  let newPt := buildPowertrainFromCodes (pairs2.map Prod.snd) sup
  let newFrame := buildFrameFromCodes newPt.1 (pairs2.map Prod.fst) 0 newPt.2
  ⟨newFrame.1, newPt.1⟩

/-! ## Crossover (Car.reproduce)

Every list access of the crossover loops is modelled as checked
(`Option`-returning): a read or write past the end of the child or the
donor would produce `none`, the model of Python's IndexError. -/

/-- The crossover window length (`Car.SEQUENCE_LENGTH`). -/
def SEQUENCE_LENGTH : ℕ := 3

/-- Checked list write: `none` models an IndexError. -/
def setChecked {α : Type} (l : List α) (i : ℕ) (a : α) : Option (List α) :=
  if i < l.length then some (l.set i a) else none

/-- One guarded window assignment
`child[idx+j] = other[idx+j] if idx+j < len(child) and idx+j < len(other)`,
with the read and the write both checked. -/
def windowStep {α : Type} (other : List α) (idx j : ℕ) (child : List α) :
    Option (List α) :=
  if idx + j < child.length ∧ idx + j < other.length then
    match other.get? (idx + j) with
    | some v => setChecked child (idx + j) v
    | none => none
  else some child

/-- The body of the crossover loop at index `idx`: with one coin, overwrite
the frame window from the donor; with an independent coin, the powertrain
window. -/
def reproStep (otherF : List FramePart) (otherP : List PowertrainPart)
    (coinF coinP : ℕ → Bool) (st : List FramePart × List PowertrainPart)
    (idx : ℕ) : Option (List FramePart × List PowertrainPart) := do
  let f1 ← if coinF idx then
      (List.range SEQUENCE_LENGTH).foldlM
        (fun c j => windowStep otherF idx j c) st.1
    else some st.1
  let p1 ← if coinP idx then
      (List.range SEQUENCE_LENGTH).foldlM
        (fun c j => windowStep otherP idx j c) st.2
    else some st.2
  some (f1, p1)

/-- The crossover part of `Car.reproduce`: the child starts as a copy of the
mother and the loop runs over `range(len(child.frame))`. -/
def crossover (mother other : CarParts) (coinF coinP : ℕ → Bool) :
    Option CarParts := do
  let st ← (List.range mother.frame.length).foldlM
      (reproStep other.frame other.powertrain coinF coinP)
      (mother.frame, mother.powertrain)
  some ⟨st.1, st.2⟩

/-- `Car.reproduce`: pick the mother by a coin, cross over, then mutate the
child. -/
def reproduceChecked (car1 car2 : CarParts) (motherCoin : Bool)
    (coinF coinP : ℕ → Bool) (draws : List (ℚ × FrameCode × PtCode))
    (sup : List ℚ) : Option CarParts := do
  let mother := if motherCoin then car1 else car2
  let other := if motherCoin then car2 else car1
  let child ← crossover mother other coinF coinP
  some (carMutate child draws sup)

/-! ## Population evolution (population.evolve_population)

Fitness is an external collaborator, passed as a function.  `rep` abstracts
`reproduce` applied to two parents with the randomness of child `k`;
`picks k` are the two survivor indices `random.sample` returns for child
`k`.  The source's conditional `mutate(child)` after breeding discards the
returned car (Car.mutate does not modify its receiver), so it does not
affect the appended child and has no counterpart in the embedding. -/

/-- Python `scored.sort(key=..., reverse=True)`: stable sort by descending
score. -/
def sortScored {α : Type} (scored : List (α × ℚ)) : List (α × ℚ) :=
  scored.mergeSort (fun a b => decide (b.2 ≤ a.2))

/-- `retain_count = max(2, int(len(scored) * retain_ratio))`: Python `int`
truncates, which is the floor for the nonnegative products at hand. -/
def retainCount (n : ℕ) (r : ℚ) : ℕ :=
  max 2 (Int.toNat ⌊(n : ℚ) * r⌋)

/-- The retained-count formula in the claim's words — `max(2,
round(retain_ratio * N))` — stated for comparison with the code's
`retainCount`. -/
def specRetainCount (n : ℕ) (r : ℚ) : ℕ :=
  max 2 (Int.toNat (round (r * (n : ℚ))))

/-- The breeding loop unrolled: child `k` is bred from the survivors at the
two sampled indices `picks k`. -/
def breedChildren {α : Type} (survivors : List α) (d : α)
    (rep : α → α → ℕ → α) (picks : ℕ → ℕ × ℕ) (need : ℕ) : List α :=
  (List.range need).map fun k =>
    rep (survivors.getD (picks k).1 d) (survivors.getD (picks k).2 d) k

/-- `evolve_population`: score, sort descending, retain the top
`retainCount`, breed children from sampled survivor pairs until the
population size is restored. -/
def evolve_population {α : Type} (pop : List α) (fitness : α → ℚ) (r : ℚ)
    (rep : α → α → ℕ → α) (picks : ℕ → ℕ × ℕ) (d : α) : List α :=
  let scored := pop.map fun c => (c, fitness c)
  let survivors := ((sortScored scored).take (retainCount pop.length r)).map
    Prod.fst
  survivors ++ breedChildren survivors d rep picks
    (pop.length - survivors.length)

end Vroomon

namespace Vroomon

/-! ## Theorems -/

/-- C1: the power propagation function returns (50, 10000) on
`[Cylinder(power=50)]` with wheel position 0; power 0 and torque 5000 on
`[DriveShaft(efficiency=0.5)]` with wheel position 0; and (50, 5000) on
`[Cylinder(power=100), GearSet(1, 0.5, 1)]` with wheel position 1 —
with `current_power` seeded at 0 and `current_torque` at 10000. -/
theorem calc_wheel_power_examples :
    calculate_wheel_power [.cylinder 50] 0 = (50, 10000) ∧
    calculate_wheel_power [.driveShaft (1/2)] 0 = (0, 5000) ∧
    calculate_wheel_power [.cylinder 100, mkGearSet 1 (1/2) 1] 1 = (50, 5000) := by
  refine ⟨?_, ?_, ?_⟩ <;> norm_num [calculate_wheel_power, calcAux, mkGearSet]

/-- Helper: when the target index lies beyond the remaining chain, the
old-code loop takes no early return and ends at the fallback value, the
fold of the full step over the whole chain. -/
lemma calcAux_exhaust (pt : List PowertrainPart) :
    ∀ (i wp : ℕ) (st : ℚ × ℚ), i + pt.length ≤ wp →
      calcAux pt i wp st = pt.foldl ptStep st := by
  induction pt with
  | nil => intro i wp st _; rfl
  | cons p rest ih =>
      intro i wp st h
      have hlen : (p :: rest).length = rest.length + 1 := rfl
      have hi : ¬ i = wp := by omega
      have hrec : i + 1 + rest.length ≤ wp := by
        rw [hlen] at h; omega
      cases p with
      | cylinder pw =>
          simp only [calcAux, List.foldl_cons, ptStep, if_neg hi]
          exact ih (i + 1) wp _ hrec
      | driveShaft e =>
          simp only [calcAux, List.foldl_cons, ptStep, if_neg hi]
          exact ih (i + 1) wp _ hrec
      | gearSet ir w o =>
          simp only [calcAux, List.foldl_cons, ptStep, if_neg hi]
          exact ih (i + 1) wp _ hrec

/-- Helper: in the same situation the current-code loop falls off the end
and returns `none`. -/
lemma calcAuxV2_exhaust (pt : List PowertrainPart) :
    ∀ (i wp : ℕ) (st : ℚ × ℚ), i + pt.length ≤ wp →
      calcAuxV2 pt i wp st = none := by
  induction pt with
  | nil => intro i wp st _; rfl
  | cons p rest ih =>
      intro i wp st h
      have hlen : (p :: rest).length = rest.length + 1 := rfl
      have hi : ¬ i = wp := by omega
      have hrec : i + 1 + rest.length ≤ wp := by
        rw [hlen] at h; omega
      cases p with
      | cylinder pw =>
          simp only [calcAuxV2, if_neg hi]
          exact ih (i + 1) wp _ hrec
      | driveShaft e =>
          simp only [calcAuxV2, if_neg hi]
          exact ih (i + 1) wp _ hrec
      | gearSet ir w o =>
          simp only [calcAuxV2, if_neg hi]
          exact ih (i + 1) wp _ hrec

/-- C7 counterexample: on the chain `[Cylinder(power=50)]` with unmatched
wheel position 1, the current (src/src) power propagation function returns
`none` (Python `None`) — it returns nothing instead of the last computed
pair `(50, 10000)`. -/
theorem calc_v2_fallthrough_returns_none :
    calculate_wheel_power_v2 [.cylinder 50] 1 = none ∧
    propagateAll [.cylinder 50] = (50, 10000) := by
  constructor
  · rfl
  · norm_num [propagateAll, ptStep]

/-- C7 (amended): when the wheel position is never matched (at or beyond the
chain length, including the empty chain), the old-code propagation function
returns the last computed `(current_power, current_torque)` pair — the fold
of the full step over the whole chain — while the current src/src version,
which lacks the fallback return, returns `None`. -/
theorem calc_wheel_power_fallthrough (pt : List PowertrainPart) (wp : ℕ)
    (h : pt.length ≤ wp) :
    calculate_wheel_power pt wp = propagateAll pt ∧
    calculate_wheel_power_v2 pt wp = none :=
  ⟨calcAux_exhaust pt 0 wp (0, 10000) (by omega),
   calcAuxV2_exhaust pt 0 wp (0, 10000) (by omega)⟩

/-- Witness for C7's amended theorem at the concrete chain
`[DriveShaft(1/2)]` with wheel position 3. -/
theorem calc_wheel_power_fallthrough_witness :
    calculate_wheel_power [.driveShaft (1/2)] 3 = propagateAll [.driveShaft (1/2)] ∧
    calculate_wheel_power_v2 [.driveShaft (1/2)] 3 = none :=
  calc_wheel_power_fallthrough [.driveShaft (1/2)] 3 (by norm_num)

/-- Helper: under the GearSet ratio bounds, the division-checked propagation
loop never hits a zero divisor and agrees with the unchecked loop. -/
lemma calcAuxChecked_eq (pt : List PowertrainPart) :
    ∀ (i wp : ℕ) (st : ℚ × ℚ), (∀ p ∈ pt, gearRatiosOK p) →
      calcAuxChecked pt i wp st = some (calcAux pt i wp st) := by
  induction pt with
  | nil => intro i wp st _; rfl
  | cons p rest ih =>
      intro i wp st h
      have hp : gearRatiosOK p := h p (List.mem_cons_self p rest)
      have hr : ∀ q ∈ rest, gearRatiosOK q :=
        fun q hq => h q (List.mem_cons_of_mem p hq)
      cases p with
      | cylinder pw =>
          by_cases hiw : i = wp <;>
            simp [calcAuxChecked, calcAux, hiw, ih _ _ _ hr]
      | driveShaft e =>
          by_cases hiw : i = wp <;>
            simp [calcAuxChecked, calcAux, hiw, ih _ _ _ hr]
      | gearSet ir w o =>
          simp only [gearRatiosOK] at hp
          have hir : ¬ ir = 0 := by
            intro h0; rw [h0] at hp; norm_num at hp
          have ho : ¬ o = 0 := by
            intro h0; rw [h0] at hp; norm_num at hp
          by_cases hiw : i = wp <;>
            simp [calcAuxChecked, calcAux, hiw, hir, ho, ih _ _ _ hr]

/-- C9: every GearSet built through the constructor (hence also by
`from_random` — the constructor applied to the three normal draws — and by
`from_dna`) has `input_ratio ≥ 0.1` and `output_ratio ≥ 0.1`, values already
at least 0.1 being kept as-is, with `wheel_proportion` stored unclamped;
and on any chain whose GearSets satisfy these bounds, the division-checked
propagation never divides by zero and agrees with the unchecked walk. -/
theorem gearset_ratios_clamped_no_div_zero :
    (∀ a b c : ℚ, ∃ i o : ℚ, mkGearSet a b c = .gearSet i b o ∧
        1/10 ≤ i ∧ 1/10 ≤ o ∧ (1/10 ≤ a → i = a) ∧ (1/10 ≤ c → o = c)) ∧
    (∀ d : PtDna, gearRatiosOK (ptFromDna d)) ∧
    (∀ (pt : List PowertrainPart) (wp : ℕ), (∀ p ∈ pt, gearRatiosOK p) →
      calculate_wheel_power_checked pt wp =
        some (calculate_wheel_power pt wp)) := by
  refine ⟨fun a b c => ?_, fun d => ?_, fun pt wp h => ?_⟩
  · exact ⟨max a (1/10), max c (1/10), rfl, le_max_right _ _, le_max_right _ _,
      fun ha => max_eq_left ha, fun hc => max_eq_left hc⟩
  · cases d with
    | C p => trivial
    | D e => trivial
    | G i w o =>
        refine ⟨le_max_right _ _, le_max_right _ _⟩
  · exact calcAuxChecked_eq pt 0 wp (0, 10000) h

/-- Witness for C9 at the chain `[GearSet(1, 1/2, 1)]` with wheel position 0. -/
theorem gearset_ratios_witness :
    calculate_wheel_power_checked [.gearSet 1 (1/2) 1] 0 =
      some (calculate_wheel_power [.gearSet 1 (1/2) 1] 0) := by
  refine gearset_ratios_clamped_no_div_zero.2.2 [.gearSet 1 (1/2) 1] 0 ?_
  intro p hp
  simp only [List.mem_singleton] at hp
  subst hp
  exact ⟨by norm_num, by norm_num⟩

/-- C8 counterexample: the GearSet DNA record with `input_ratio = 1/20`
(below the 0.1 floor) does not round-trip verbatim — `from_dna` routes the
fields through the constructor, which clamps the ratio to 1/10. -/
theorem pt_dna_roundtrip_counterexample :
    ptToDna (ptFromDna (.G (1/20) (1/2) 1)) = .G (1/10) (1/2) 1 ∧
    ptToDna (ptFromDna (.G (1/20) (1/2) 1)) ≠ .G (1/20) (1/2) 1 := by
  have hmax : max (1/20 : ℚ) (1/10) = 1/10 := max_eq_right (by norm_num)
  have hmax1 : max (1 : ℚ) (1/10) = 1 := max_eq_left (by norm_num)
  have h1 : ptToDna (ptFromDna (.G (1/20) (1/2) 1)) = .G (1/10) (1/2) 1 := by
    show PtDna.G (max (1/20 : ℚ) (1/10)) (1/2) (max (1 : ℚ) (1/10)) =
      PtDna.G (1/10) (1/2) 1
    rw [hmax, hmax1]
  refine ⟨h1, ?_⟩
  rw [h1]
  intro h
  simp only [PtDna.G.injEq] at h
  norm_num at h

/-- C8 (amended): deserializing then reserializing a tagged powertrain DNA
record reproduces it verbatim for Cylinder and DriveShaft always, and for
GearSet exactly when its `input_ratio` and `output_ratio` are already at
least the 0.1 constructor floor (the `wheel_proportion` field is always
reproduced verbatim). -/
theorem pt_dna_roundtrip_clamped :
    (∀ p : ℚ, ptToDna (ptFromDna (.C p)) = .C p) ∧
    (∀ e : ℚ, ptToDna (ptFromDna (.D e)) = .D e) ∧
    (∀ i w o : ℚ, 1/10 ≤ i → 1/10 ≤ o →
      ptToDna (ptFromDna (.G i w o)) = .G i w o) := by
  refine ⟨fun p => rfl, fun e => rfl, fun i w o hi ho => ?_⟩
  show PtDna.G (max i (1/10)) w (max o (1/10)) = PtDna.G i w o
  rw [max_eq_left hi, max_eq_left ho]

/-- Witness for C8's amended theorem at concrete records of each variant. -/
theorem pt_dna_roundtrip_witness :
    ptToDna (ptFromDna (.C 5)) = .C 5 ∧
    ptToDna (ptFromDna (.D (9/10))) = .D (9/10) ∧
    ptToDna (ptFromDna (.G 1 (1/2) 2)) = .G 1 (1/2) 2 :=
  ⟨pt_dna_roundtrip_clamped.1 5, pt_dna_roundtrip_clamped.2.1 (9/10),
   pt_dna_roundtrip_clamped.2.2 1 (1/2) 2 (by norm_num) (by norm_num)⟩

/-- Helper: the validated size is always positive. -/
lemma validate_size_pos (x : PyFloat) : 0 < validate_size x := by
  cases x with
  | nan => norm_num [validate_size]
  | inf b => norm_num [validate_size]
  | fin s =>
      simp only [validate_size]
      split_ifs <;> linarith

/-- Helper: the validated rate of a nonzero rate is nonzero. -/
lemma validate_rate_ne_zero {r : ℚ} (h : r ≠ 0) : validate_rate r ≠ 0 := by
  simp only [validate_rate]
  split_ifs <;> first | exact h | norm_num

/-- C5: a Wheel built with finite power within the 0.001 tolerance of zero
has a disabled motor — rate 0 and `max_force` exactly 0 — for every torque
and size input; and no built wheel ever has a motor with zero rate and
nonzero force. -/
theorem zero_power_wheel_motor_disabled :
    (∀ (q : ℚ) (t s : PyFloat), |q| < 1/1000 →
      (buildWheel (.fin q) t s).motor = ⟨0, 0⟩) ∧
    (∀ p t s : PyFloat, (buildWheel p t s).motor.rate = 0 →
      (buildWheel p t s).motor.max_force = 0) := by
  constructor
  · intro q t s hq
    have hp : validate_power (.fin q) = q := by
      simp only [validate_power]
      rw [if_neg]
      have := abs_nonneg q
      push_neg
      linarith
    show wheelMotor (validate_power (.fin q)) _ _ = _
    rw [hp]
    simp only [wheelMotor, if_pos hq]
  · intro p t s hrate
    by_cases hz : |validate_power p| < 1/1000
    · show (wheelMotor (validate_power p) _ _).max_force = 0
      simp only [wheelMotor, if_pos hz]
    · exfalso
      apply validate_rate_ne_zero
        (r := -validate_power p / validate_size s) ?_ ?_
      · have hs := validate_size_pos s
        have hpne : validate_power p ≠ 0 := by
          intro h0
          rw [h0] at hz
          norm_num at hz
        exact div_ne_zero (neg_ne_zero.mpr hpne) (ne_of_gt hs)
      · have hr : (buildWheel p t s).motor.rate =
            validate_rate (-validate_power p / validate_size s) := by
          show (wheelMotor (validate_power p) _ _).rate = _
          simp only [wheelMotor, if_neg hz]
        rw [← hr]
        exact hrate

/-- Witness for C5 at power 0, torque 500, size 5. -/
theorem zero_power_wheel_witness :
    (buildWheel (.fin 0) (.fin 500) (.fin 5)).motor = ⟨0, 0⟩ ∧
    ((buildWheel (.fin 2) (.fin 500) (.fin 5)).motor.rate = 0 →
      (buildWheel (.fin 2) (.fin 500) (.fin 5)).motor.max_force = 0) :=
  ⟨zero_power_wheel_motor_disabled.1 0 (.fin 500) (.fin 5) (by norm_num),
   zero_power_wheel_motor_disabled.2 (.fin 2) (.fin 500) (.fin 5)⟩

/-- C6: the Wheel numeric validators are total functions realizing exactly
the documented mapping: size NaN/Infinity → 5, size below 0.1 (including
zero and negatives) → 1, size above 50 → 50, in-range size unchanged;
power NaN → 0, power ±Infinity → ±1000, power beyond magnitude 10000
clamped to ±10000 with matching sign, in-range power unchanged; torque
NaN → 0.1, torque Infinity → 1000, torque ≤ 0 → 0.1, torque above 50000 →
50000, in-range torque unchanged. -/
theorem wheel_validators_exact :
    (validate_size .nan = 5) ∧
    (∀ b, validate_size (.inf b) = 5) ∧
    (∀ s : ℚ, s < 1/10 → validate_size (.fin s) = 1) ∧
    (∀ s : ℚ, s > 50 → validate_size (.fin s) = 50) ∧
    (∀ s : ℚ, 1/10 ≤ s → s ≤ 50 → validate_size (.fin s) = s) ∧
    (validate_power .nan = 0) ∧
    (validate_power (.inf true) = 1000) ∧
    (validate_power (.inf false) = -1000) ∧
    (∀ p : ℚ, p > 10000 → validate_power (.fin p) = 10000) ∧
    (∀ p : ℚ, p < -10000 → validate_power (.fin p) = -10000) ∧
    (∀ p : ℚ, |p| ≤ 10000 → validate_power (.fin p) = p) ∧
    (validate_torque .nan = 1/10) ∧
    (∀ b, validate_torque (.inf b) = 1000) ∧
    (∀ t : ℚ, t ≤ 0 → validate_torque (.fin t) = 1/10) ∧
    (∀ t : ℚ, t > 50000 → validate_torque (.fin t) = 50000) ∧
    (∀ t : ℚ, 0 < t → t ≤ 50000 → validate_torque (.fin t) = t) := by
  refine ⟨rfl, fun b => rfl, ?_, ?_, ?_, rfl, rfl, rfl, ?_, ?_, ?_, rfl,
    fun b => rfl, ?_, ?_, ?_⟩
  · intro s hs
    simp only [validate_size]
    split_ifs <;> first | rfl | linarith
  · intro s hs
    simp only [validate_size]
    split_ifs <;> first | rfl | linarith
  · intro s h1 h2
    simp only [validate_size]
    split_ifs <;> first | rfl | linarith
  · intro p hp
    simp only [validate_power]
    have h1 : |p| > 10000 := by
      rw [abs_of_pos (by linarith : (0:ℚ) < p)]
      exact hp
    rw [if_pos h1, if_pos (by linarith : p > 0)]
  · intro p hp
    simp only [validate_power]
    have h1 : |p| > 10000 := by
      rw [abs_of_neg (by linarith : p < (0:ℚ))]
      linarith
    rw [if_pos h1, if_neg (by linarith : ¬ p > 0)]
  · intro p hp
    simp only [validate_power]
    rw [if_neg (by linarith : ¬ |p| > 10000)]
  · intro t ht
    simp only [validate_torque]
    rw [if_pos ht]
  · intro t ht
    simp only [validate_torque]
    split_ifs <;> first | rfl | linarith
  · intro t h1 h2
    simp only [validate_torque]
    split_ifs <;> first | rfl | linarith

/-- Witness for C6's conditional cases at concrete inputs in every branch. -/
theorem wheel_validators_witness :
    validate_size (.fin (1/20)) = 1 ∧ validate_size (.fin 60) = 50 ∧
    validate_size (.fin 5) = 5 ∧ validate_power (.fin 20000) = 10000 ∧
    validate_power (.fin (-20000)) = -10000 ∧ validate_power (.fin 3) = 3 ∧
    validate_torque (.fin (-1)) = 1/10 ∧ validate_torque (.fin 60000) = 50000 ∧
    validate_torque (.fin 7) = 7 := by
  obtain ⟨-, -, h3, h4, h5, -, -, -, h9, h10, h11, -, -, h14, h15, h16⟩ :=
    wheel_validators_exact
  exact ⟨h3 _ (by norm_num), h4 _ (by norm_num), h5 _ (by norm_num) (by norm_num),
    h9 _ (by norm_num), h10 _ (by norm_num), h11 _ (by rw [abs_of_pos] <;> norm_num),
    h14 _ (by norm_num), h15 _ (by norm_num), h16 _ (by norm_num) (by norm_num)⟩

/-- Helper: a single mutate edit at an in-range index preserves the parallel
equal-length invariant, keeps at least one slot, and shrinks the genome only
when more than one slot was present. -/
lemma mutateStep_invariant {F P : Type} (g : Genome F P) (i : ℕ)
    (d : MutDraw F P) (h : g.frame.length = g.powertrain.length)
    (hi : i < g.frame.length) :
    (mutateStep g i d).1.frame.length =
        (mutateStep g i d).1.powertrain.length ∧
      1 ≤ (mutateStep g i d).1.frame.length ∧
      ((mutateStep g i d).1.frame.length < g.frame.length →
        1 < g.frame.length) := by
  simp only [mutateStep]
  split_ifs with h1 h2 h3
  · refine ⟨?_, ?_, ?_⟩
    · simp only [List.length_set]; exact h
    · simp only [List.length_set]; omega
    · simp only [List.length_set]; omega
  · obtain ⟨h2a, h2b⟩ := h2
    have hip : i < g.powertrain.length := by omega
    have e1 : (g.frame.eraseIdx i).length = g.frame.length - 1 := by
      rw [List.length_eraseIdx]; simp [hi]
    have e2 : (g.powertrain.eraseIdx i).length = g.powertrain.length - 1 := by
      rw [List.length_eraseIdx]; simp [hip]
    refine ⟨?_, ?_, fun _ => h2b⟩
    · rw [e1, e2, h]
    · rw [e1]; omega
  · have hle : i ≤ g.frame.length := le_of_lt hi
    have hlep : i ≤ g.powertrain.length := by omega
    refine ⟨?_, ?_, ?_⟩
    · rw [List.length_insertIdx _ _ hle, List.length_insertIdx _ _ hlep, h]
    · rw [List.length_insertIdx _ _ hle]; omega
    · rw [List.length_insertIdx _ _ hle]; omega
  · refine ⟨h, ?_, ?_⟩
    · show 1 ≤ g.frame.length
      omega
    · show g.frame.length < g.frame.length → 1 < g.frame.length
      omega

/-- Helper: the whole mutate loop preserves the equal-length invariant and a
nonempty genome. -/
lemma mutateLoop_invariant {F P : Type} (draws : List (MutDraw F P)) :
    ∀ (g : Genome F P) (i : ℕ), g.frame.length = g.powertrain.length →
      1 ≤ g.frame.length →
      (mutateLoop draws g i).frame.length =
          (mutateLoop draws g i).powertrain.length ∧
        1 ≤ (mutateLoop draws g i).frame.length := by
  induction draws with
  | nil => intro g i h h1; exact ⟨h, h1⟩
  | cons d rest ih =>
      intro g i h h1
      simp only [mutateLoop]
      by_cases hi : i < g.frame.length
      · rw [if_pos hi]
        obtain ⟨hA, hB, -⟩ := mutateStep_invariant g i d h hi
        exact ih _ _ hA hB
      · rw [if_neg hi]
        exact ⟨h, h1⟩

/-- C2: starting from parallel frame/powertrain sequences of equal length
≥ 1, every single mutation edit at the loop's in-range index keeps the two
sequences the same length and keeps at least one slot (a removal needs more
than one slot, so the genome can only shrink when it had at least two), and
consequently the whole mutation loop, for every outcome of its random
draws, returns equal-length sequences with at least one slot. -/
theorem mutation_preserves_parallel_lengths :
    (∀ (F P : Type) (g : Genome F P) (i : ℕ) (d : MutDraw F P),
      g.frame.length = g.powertrain.length → i < g.frame.length →
        (mutateStep g i d).1.frame.length =
            (mutateStep g i d).1.powertrain.length ∧
          1 ≤ (mutateStep g i d).1.frame.length ∧
          ((mutateStep g i d).1.frame.length < g.frame.length →
            1 < g.frame.length)) ∧
    (∀ (F P : Type) (draws : List (MutDraw F P)) (g : Genome F P) (i : ℕ),
      g.frame.length = g.powertrain.length → 1 ≤ g.frame.length →
        (mutateLoop draws g i).frame.length =
            (mutateLoop draws g i).powertrain.length ∧
          1 ≤ (mutateLoop draws g i).frame.length) :=
  ⟨fun _ _ g i d h hi => mutateStep_invariant g i d h hi,
   fun _ _ draws g i h h1 => mutateLoop_invariant draws g i h h1⟩

/-- Witness for C2 on a length-2 genome with one remove draw. -/
theorem mutation_parallel_witness :
    (mutateLoop [⟨12/100, 9, 9⟩] (⟨[1, 2], [3, 4]⟩ : Genome ℕ ℕ) 0).frame.length =
      (mutateLoop [⟨12/100, 9, 9⟩] (⟨[1, 2], [3, 4]⟩ : Genome ℕ ℕ) 0).powertrain.length ∧
    1 ≤ (mutateLoop [⟨12/100, 9, 9⟩] (⟨[1, 2], [3, 4]⟩ : Genome ℕ ℕ) 0).frame.length :=
  mutation_preserves_parallel_lengths.2 ℕ ℕ [⟨12/100, 9, 9⟩] ⟨[1, 2], [3, 4]⟩ 0
    rfl (by norm_num)

/-- C10 (amended): a slot where the mutation loop takes the final else
branch is left untouched by the loop itself — for the in-place
`population.mutate` the part objects with all their parameters, and for
`Car.mutate` the pair of DNA type codes.  But `Car.mutate` then rebuilds
the car from bare type codes, so kept slots keep only their types, with all
parameter values regenerated at random (see the counterexample). -/
theorem mutate_keep_branch_codes_only :
    (∀ (F P : Type) (g : Genome F P) (i : ℕ) (d : MutDraw F P),
      2/10 ≤ d.r → mutateStep g i d = (g, i + 1)) ∧
    (∀ (l : List (FrameCode × PtCode)) (i : ℕ) (r : ℚ)
        (np : FrameCode × PtCode), 2/10 ≤ r →
      pairsStep l i r np = (l, i + 1)) := by
  constructor
  · intro F P g i d h
    simp only [mutateStep]
    split_ifs with h1 h2 h3
    · exact absurd h1 (by linarith)
    · exact absurd h2.1 (by linarith)
    · exact absurd h3 (by linarith)
    · rfl
  · intro l i r np h
    simp only [pairsStep]
    split_ifs with h1 h2 h3
    · exact absurd h1 (by linarith)
    · exact absurd h2.1 (by linarith)
    · exact absurd h3 (by linarith)
    · rfl

/-- Witness for C10's amended theorem with keep draws (r = 1). -/
theorem mutate_keep_branch_witness :
    mutateStep (⟨[1], [2]⟩ : Genome ℕ ℕ) 0 ⟨1, 5, 6⟩ = (⟨[1], [2]⟩, 1) ∧
    pairsStep [(.R, .C)] 0 1 (.W, .D) = ([(.R, .C)], 1) :=
  ⟨mutate_keep_branch_codes_only.1 ℕ ℕ ⟨[1], [2]⟩ 0 ⟨1, 5, 6⟩ (by norm_num),
   mutate_keep_branch_codes_only.2 [(.R, .C)] 0 1 (.W, .D) (by norm_num)⟩

/-- C10 counterexample: a car with powertrain `[Cylinder(power=50)]` whose
single slot takes the else (keep) branch (draw r = 1) still comes out of
`Car.mutate` with a different Cylinder power — the rebuild from bare type
codes redraws it (here 100) — so a kept slot does not keep its parameter
values. -/
theorem car_mutate_keep_regenerates_params :
    (carMutate ⟨[.rect 10 5], [.cylinder 50]⟩ [(1, .R, .C)]
        [100, 3, 7]).powertrain = [.cylinder 100] ∧
    (carMutate ⟨[.rect 10 5], [.cylinder 50]⟩ [(1, .R, .C)]
        [100, 3, 7]).powertrain ≠ [.cylinder 50] := by
  have h1 : (carMutate ⟨[.rect 10 5], [.cylinder 50]⟩ [(1, .R, .C)]
      [100, 3, 7]).powertrain = [.cylinder 100] := by
    norm_num [carMutate, pairsLoop, pairsStep, buildPowertrainFromCodes,
      ptPartFromCode, drawQ, frameCodeOf, ptCodeOf]
  refine ⟨h1, ?_⟩
  rw [h1]
  intro h
  simp only [List.cons.injEq, PowertrainPart.cylinder.injEq] at h
  norm_num at h

/-- Helper: one guarded window assignment never fails and preserves the
child's length. -/
lemma windowStep_some {α : Type} (other : List α) (idx j : ℕ)
    (child : List α) :
    ∃ c, windowStep other idx j child = some c ∧ c.length = child.length := by
  by_cases h : idx + j < child.length ∧ idx + j < other.length
  · refine ⟨child.set (idx + j) (other.get ⟨idx + j, h.2⟩), ?_,
      List.length_set _ _ _⟩
    simp only [windowStep, if_pos h, List.get?_eq_get h.2, setChecked,
      if_pos h.1]
  · exact ⟨child, by simp only [windowStep, if_neg h], rfl⟩

/-- Helper: a whole crossover window (any list of offsets) never fails and
preserves the child's length. -/
lemma foldlM_window_some {α : Type} (other : List α) (idx : ℕ)
    (js : List ℕ) :
    ∀ child : List α, ∃ c,
      js.foldlM (fun c j => windowStep other idx j c) child = some c ∧
        c.length = child.length := by
  induction js with
  | nil => intro child; exact ⟨child, rfl, rfl⟩
  | cons j rest ih =>
      intro child
      obtain ⟨c1, hc1, hl1⟩ := windowStep_some other idx j child
      obtain ⟨c2, hc2, hl2⟩ := ih c1
      exact ⟨c2, by simp [List.foldlM_cons, hc1, hc2], by rw [hl2, hl1]⟩

/-- Helper: the crossover loop body never fails and preserves both lengths. -/
lemma reproStep_some (otherF : List FramePart) (otherP : List PowertrainPart)
    (coinF coinP : ℕ → Bool) (st : List FramePart × List PowertrainPart)
    (idx : ℕ) :
    ∃ st2, reproStep otherF otherP coinF coinP st idx = some st2 ∧
      st2.1.length = st.1.length ∧ st2.2.length = st.2.length := by
  by_cases hcf : coinF idx = true <;> by_cases hcp : coinP idx = true
  · obtain ⟨f1, hf1, hlf⟩ :=
      foldlM_window_some otherF idx (List.range SEQUENCE_LENGTH) st.1
    obtain ⟨p1, hp1, hlp⟩ :=
      foldlM_window_some otherP idx (List.range SEQUENCE_LENGTH) st.2
    refine ⟨(f1, p1), ?_, hlf, hlp⟩
    simp only [reproStep, if_pos hcf, if_pos hcp, hf1, hp1]
    rfl
  · obtain ⟨f1, hf1, hlf⟩ :=
      foldlM_window_some otherF idx (List.range SEQUENCE_LENGTH) st.1
    refine ⟨(f1, st.2), ?_, hlf, rfl⟩
    simp only [reproStep, if_pos hcf, if_neg hcp, hf1]
    rfl
  · obtain ⟨p1, hp1, hlp⟩ :=
      foldlM_window_some otherP idx (List.range SEQUENCE_LENGTH) st.2
    refine ⟨(st.1, p1), ?_, rfl, hlp⟩
    simp only [reproStep, if_neg hcf, if_pos hcp, hp1]
    rfl
  · refine ⟨(st.1, st.2), ?_, rfl, rfl⟩
    simp only [reproStep, if_neg hcf, if_neg hcp]
    rfl

/-- Helper: the whole crossover loop never fails and preserves both
lengths. -/
lemma foldlM_reproStep_some (otherF : List FramePart)
    (otherP : List PowertrainPart) (coinF coinP : ℕ → Bool)
    (idxs : List ℕ) :
    ∀ st, ∃ st2,
      idxs.foldlM (reproStep otherF otherP coinF coinP) st = some st2 ∧
        st2.1.length = st.1.length ∧ st2.2.length = st.2.length := by
  induction idxs with
  | nil => intro st; exact ⟨st, rfl, rfl, rfl⟩
  | cons idx rest ih =>
      intro st
      obtain ⟨s1, hs1, h1a, h1b⟩ :=
        reproStep_some otherF otherP coinF coinP st idx
      obtain ⟨s2, hs2, h2a, h2b⟩ := ih s1
      exact ⟨s2, by simp [List.foldlM_cons, hs1, hs2],
        by rw [h2a, h1a], by rw [h2b, h1b]⟩

/-- C3: for every pair of parent cars — any genome lengths, including 2 vs 5
and 1 vs 7 — and every outcome of the crossover randomness, `Car.reproduce`
(whose window accesses are modelled as bounds-checked operations returning
`none` on any read or write past the donor's or the child's length) always
returns a child: no access is ever out of range. -/
theorem reproduce_bounds_safe (car1 car2 : CarParts) (motherCoin : Bool)
    (coinF coinP : ℕ → Bool) (draws : List (ℚ × FrameCode × PtCode))
    (sup : List ℚ) :
    ∃ child, reproduceChecked car1 car2 motherCoin coinF coinP draws sup =
      some child := by
  obtain ⟨st2, hst, -, -⟩ := foldlM_reproStep_some
    (if motherCoin then car2 else car1).frame
    (if motherCoin then car2 else car1).powertrain coinF coinP
    (List.range (if motherCoin then car1 else car2).frame.length)
    ((if motherCoin then car1 else car2).frame,
     (if motherCoin then car1 else car2).powertrain)
  refine ⟨carMutate ⟨st2.1, st2.2⟩ draws sup, ?_⟩
  simp only [reproduceChecked, crossover, hst, Option.bind_eq_bind,
    Option.some_bind]

/-- Helper: the descending sort is a permutation of its input. -/
lemma sortScored_perm {α : Type} (scored : List (α × ℚ)) :
    (sortScored scored).Perm scored :=
  List.mergeSort_perm scored _

/-- Helper: sorting preserves length. -/
lemma sortScored_length {α : Type} (scored : List (α × ℚ)) :
    (sortScored scored).length = scored.length :=
  (sortScored_perm scored).length_eq

/-- Helper: the code's retain count never exceeds the population size when
the ratio is at most 1 and the population has at least two members. -/
lemma retainCount_le {n : ℕ} {r : ℚ} (hN : 2 ≤ n) (hr1 : r ≤ 1) :
    retainCount n r ≤ n := by
  unfold retainCount
  refine max_le hN ?_
  have h1 : (n : ℚ) * r ≤ (n : ℚ) := by
    calc (n : ℚ) * r ≤ (n : ℚ) * 1 :=
          mul_le_mul_of_nonneg_left hr1 (by positivity)
      _ = (n : ℚ) := mul_one _
  have h2 : ⌊(n : ℚ) * r⌋ ≤ (n : ℤ) := by
    have := Int.floor_le_floor h1
    simpa using this
  exact Int.toNat_le.mpr h2

/-- Helper: the survivor list has exactly `retainCount` members. -/
lemma survivors_length {α : Type} (pop : List α) (fitness : α → ℚ) (r : ℚ)
    (hN : 2 ≤ pop.length) (hr1 : r ≤ 1) :
    (((sortScored (pop.map fun c => (c, fitness c))).take
        (retainCount pop.length r)).map Prod.fst).length =
      retainCount pop.length r := by
  rw [List.length_map, List.length_take, sortScored_length, List.length_map]
  exact min_eq_left (retainCount_le hN hr1)

/-- Helper: the sorted scored list is descending in the score component. -/
lemma sortScored_sorted {α : Type} (scored : List (α × ℚ)) :
    List.Sorted (fun a b : α × ℚ => b.2 ≤ a.2) (sortScored scored) := by
  have h := @List.sorted_mergeSort (α × ℚ)
    (fun a b : α × ℚ => decide (b.2 ≤ a.2))
    (fun a b c hab hbc => decide_eq_true
      (le_trans (of_decide_eq_true hbc) (of_decide_eq_true hab)))
    (fun a b => by
      simp only [Bool.or_eq_true, decide_eq_true_eq]
      exact le_total b.2 a.2)
    scored
  exact h.imp fun hab => of_decide_eq_true hab

/-- Helper: every survivor is a member of the original population (its DNA
is carried over unchanged). -/
lemma survivors_mem {α : Type} (pop : List α) (fitness : α → ℚ) (rc : ℕ)
    (c : α)
    (hc : c ∈ ((sortScored (pop.map fun x => (x, fitness x))).take rc).map
      Prod.fst) : c ∈ pop := by
  obtain ⟨x, hx, hxc⟩ := List.mem_map.mp hc
  have hx2 : x ∈ sortScored (pop.map fun x => (x, fitness x)) :=
    List.mem_of_mem_take hx
  have hx3 : x ∈ pop.map fun x => (x, fitness x) :=
    (sortScored_perm _).mem_iff.mp hx2
  obtain ⟨a, ha, hax⟩ := List.mem_map.mp hx3
  rw [← hxc, ← hax]
  exact ha

/-- Helper: the breeding loop produces exactly the number of children it is
asked for. -/
lemma breedChildren_length {α : Type} (survivors : List α) (d : α)
    (rep : α → α → ℕ → α) (picks : ℕ → ℕ × ℕ) (need : ℕ) :
    (breedChildren survivors d rep picks need).length = need := by
  unfold breedChildren
  rw [List.length_map, List.length_range]

/-- Helper: child `k` is bred from the two sampled survivors. -/
lemma breedChildren_get {α : Type} (survivors : List α) (d : α)
    (rep : α → α → ℕ → α) (picks : ℕ → ℕ × ℕ) (need k : ℕ) (hk : k < need) :
    (breedChildren survivors d rep picks need).get? k =
      some (rep (survivors.getD (picks k).1 d)
        (survivors.getD (picks k).2 d) k) := by
  unfold breedChildren
  rw [List.get?_map, List.get?_range hk]
  rfl

/-- Helper: `evolve_population` unfolded. -/
lemma evolve_population_def {α : Type} (pop : List α) (fitness : α → ℚ)
    (r : ℚ) (rep : α → α → ℕ → α) (picks : ℕ → ℕ × ℕ) (d : α) :
    evolve_population pop fitness r rep picks d =
      (((sortScored (pop.map fun c => (c, fitness c))).take
          (retainCount pop.length r)).map Prod.fst) ++
        breedChildren (((sortScored (pop.map fun c => (c, fitness c))).take
            (retainCount pop.length r)).map Prod.fst) d rep picks
          (pop.length -
            (((sortScored (pop.map fun c => (c, fitness c))).take
              (retainCount pop.length r)).map Prod.fst).length) := rfl

/-- C4 counterexample: for a population of 7 and retain ratio 1/2 the code
retains `max(2, int(7 * 0.5)) = 3` members — `int` truncates — while the
claim's formula `max(2, round(0.5 * 7))` gives 4.  The retained set is the
top 3, not the top 4. -/
theorem retain_count_truncates_not_rounds :
    retainCount 7 (1/2) = 3 ∧ specRetainCount 7 (1/2) = 4 ∧
    retainCount 7 (1/2) ≠ specRetainCount 7 (1/2) := by
  have h1 : ⌊(7 : ℚ) * (1/2)⌋ = 3 := by norm_num [Int.floor_eq_iff]
  have h2 : round ((1/2 : ℚ) * 7) = 4 := by
    norm_num [round_eq, Int.floor_eq_iff]
  have e1 : retainCount 7 (1/2) = 3 := by
    unfold retainCount
    rw [show ((7 : ℕ) : ℚ) * (1/2) = (7 : ℚ) * (1/2) by norm_num, h1]
    rfl
  have e2 : specRetainCount 7 (1/2) = 4 := by
    unfold specRetainCount
    rw [show ((1 : ℚ)/2) * ((7 : ℕ) : ℚ) = (1/2 : ℚ) * 7 by norm_num, h2]
    rfl
  exact ⟨e1, e2, by rw [e1, e2]; norm_num⟩

/-- C4 (amended): for a population of size N ≥ 2 and retain ratio in (0, 1],
`evolve_population` returns exactly N members: the top
`max(2, int(retain_ratio * N))` members (`int` truncates; not `round`) of
the descending stable sort by fitness, carried over unmutated (each is a
member of the input population), followed by offspring; child `k` is
`reproduce` of the two retained parents at the sampled index pair
`picks k` — `random.sample` draws two *distinct* survivors, not a sample
with replacement — and the subsequent `mutate(child)` call with probability
`mutation_rate` discards its result for Car members, so the appended
children are exactly the `reproduce` outputs. -/
theorem evolve_population_structure {α : Type} (pop : List α)
    (fitness : α → ℚ) (r : ℚ) (rep : α → α → ℕ → α) (picks : ℕ → ℕ × ℕ)
    (d : α) (hN : 2 ≤ pop.length) (hr1 : r ≤ 1) :
    (evolve_population pop fitness r rep picks d).length = pop.length ∧
    evolve_population pop fitness r rep picks d =
      (((sortScored (pop.map fun c => (c, fitness c))).take
          (retainCount pop.length r)).map Prod.fst) ++
        breedChildren (((sortScored (pop.map fun c => (c, fitness c))).take
            (retainCount pop.length r)).map Prod.fst) d rep picks
          (pop.length - retainCount pop.length r) ∧
    2 ≤ retainCount pop.length r ∧ retainCount pop.length r ≤ pop.length ∧
    List.Sorted (fun a b : α × ℚ => b.2 ≤ a.2)
      (sortScored (pop.map fun c => (c, fitness c))) ∧
    (∀ c ∈ ((sortScored (pop.map fun c => (c, fitness c))).take
        (retainCount pop.length r)).map Prod.fst, c ∈ pop) ∧
    (∀ k, k < pop.length - retainCount pop.length r →
      (breedChildren (((sortScored (pop.map fun c => (c, fitness c))).take
          (retainCount pop.length r)).map Prod.fst) d rep picks
        (pop.length - retainCount pop.length r)).get? k =
      some (rep
        ((((sortScored (pop.map fun c => (c, fitness c))).take
          (retainCount pop.length r)).map Prod.fst).getD (picks k).1 d)
        ((((sortScored (pop.map fun c => (c, fitness c))).take
          (retainCount pop.length r)).map Prod.fst).getD (picks k).2 d)
        k)) := by
  have hsl := survivors_length pop fitness r hN hr1
  have hrc := retainCount_le (n := pop.length) (r := r) hN hr1
  refine ⟨?_, ?_, le_max_left _ _, hrc, sortScored_sorted _,
    fun c hc => survivors_mem pop fitness _ c hc,
    fun k hk => breedChildren_get _ _ _ _ _ _ hk⟩
  · rw [evolve_population_def, List.length_append, breedChildren_length,
      hsl]
    omega
  · rw [evolve_population_def, hsl]

/-- Witness for C4's amended theorem on the concrete population [1, 2] with
identity fitness and ratio 1. -/
theorem evolve_population_structure_witness :
    (evolve_population [(1 : ℚ), 2] (fun x => x) 1 (fun a _ _ => a)
      (fun _ => (0, 1)) 0).length = 2 :=
  (evolve_population_structure [(1 : ℚ), 2] (fun x => x) 1 (fun a _ _ => a)
    (fun _ => (0, 1)) 0 (by norm_num) (by norm_num)).1

end Vroomon
